import Mathlib

/-!
# Verification of the Math-Agent orchestration core

A shallow embedding, in Lean 4, of the control logic of the math-agent
pipeline (input guardrail, query breaker, local RAG fallback decision,
hybrid merger/reranker, verifier parsing, bounded verification retry loop,
output finalizer), translated from the Python sources under `src/`:

* `src/nodes/input_guardrail.py`
* `src/nodes/query_breaker.py`
* `src/nodes/local_rag.py`
* `src/nodes/hybrid_reranker.py`
* `src/nodes/verifier.py`
* `src/nodes/output_node.py`
* `src/graph/build_graph.py`

External collaborators (the LLM calls, the Qdrant index tool, the web
search bridge, the cross-encoder scorer, `json.loads`) are modelled as
oracle parameters; everything else is translated directly.  Python
floats appearing only in comparisons are modelled as rationals; Python
strings as Lean `String` / `List Char` (byte-identical for the ASCII
data involved).
-/

namespace MathAgent

/-! ## JSON values

Model of the values produced by Python `json.loads`: objects are
insertion-ordered association lists (as Python dicts are). -/

inductive JVal where
  | null : JVal
  | bool (b : Bool) : JVal
  | num (q : ℚ) : JVal
  | str (s : String) : JVal
  | arr (xs : List JVal) : JVal
  | obj (kvs : List (String × JVal)) : JVal

/-- Python truthiness (`bool(v)`) of a JSON value. -/
def truthy : JVal → Bool
  | .null => false
  | .bool b => b
  | .num q => q ≠ 0
  | .str s => s ≠ ""
  | .arr xs => ¬ xs.isEmpty
  | .obj kvs => ¬ kvs.isEmpty

/-- Python `d.get(k)` on a dict modelled as an association list
(first binding wins; Python dicts have unique keys). -/
def jget (kvs : List (String × JVal)) (k : String) : Option JVal :=
  (kvs.find? (fun p => p.1 = k)).map (fun p => p.2)

/-- Python `d.setdefault(k, v)`: keep an existing binding, otherwise
append the new one (Python dicts preserve insertion order). -/
def jsetdefault (kvs : List (String × JVal)) (k : String) (v : JVal) :
    List (String × JVal) :=
  if (jget kvs k).isSome then kvs else kvs ++ [(k, v)]

/-- Python `d[k] = v`: overwrite in place, otherwise append. -/
def jset (kvs : List (String × JVal)) (k : String) (v : JVal) :
    List (String × JVal) :=
  if (jget kvs k).isSome then
    kvs.map (fun p => if p.1 = k then (p.1, v) else p)
  else kvs ++ [(k, v)]

/-! ## Python string primitives -/

/-- The whitespace set of Python `str.strip()`. -/
def isPyWs (c : Char) : Bool :=
  c = ' ' || c = '\t' || c = '\n' || c = '\r' || c = '\x0b' || c = '\x0c'

/-- Python `str.strip()` on a character list. -/
def pyStripL (l : List Char) : List Char :=
  ((l.dropWhile isPyWs).reverse.dropWhile isPyWs).reverse

/-- Python `str.strip()`. -/
def pyStrip (s : String) : String := String.mk (pyStripL s.data)

/-- Is `p` a (case-sensitive) prefix of `l`? -/
def isPfx : List Char → List Char → Bool
  | [], _ => true
  | _ :: _, [] => false
  | p :: ps, c :: cs => p = c && isPfx ps cs

/-- Python substring containment `n in h` on character lists: `n` is a
prefix of some suffix of `h`. -/
def containsL (h n : List Char) : Bool :=
  match h with
  | [] => isPfx n []
  | c :: t => isPfx n (c :: t) || containsL t n

/-- Python substring containment `n in h`. -/
def containsSub (h n : String) : Bool := containsL h.data n.data

/-- Python `str.lower()` (ASCII data). -/
def lowerS (s : String) : String := String.mk (s.data.map Char.toLower)

/-- Python `str.startswith(p)`. -/
def startsWithS (s p : String) : Bool := isPfx p.data s.data

/-- Python slicing `s[n:]` (by characters). -/
def dropS (s : String) (n : ℕ) : String := String.mk (s.data.drop n)

/-- Python slicing `s[:-n]` (by characters). -/
def dropRightS (s : String) (n : ℕ) : String :=
  String.mk (s.data.take (s.data.length - n))

/-- Python `str.split(sep)` scan: emit the current fragment at each
(leftmost, non-overlapping) occurrence of `sep`.  The fuel only bounds
the recursion (each step consumes at least one character, so
`l.length + 1` never runs out); `sep` is non-empty at every use site. -/
def splitOnAux (sep : List Char) : ℕ → List Char → List Char → List (List Char)
  | 0, l, cur => [cur.reverse ++ l]
  | fuel + 1, l, cur =>
    match l with
    | [] => [cur.reverse]
    | c :: t =>
      if isPfx sep l then
        cur.reverse :: splitOnAux sep fuel (l.drop sep.length) []
      else splitOnAux sep fuel t (c :: cur)

/-- Python `str.split(sep)`. -/
def splitOnS (s sep : String) : List String :=
  (splitOnAux sep.data (s.data.length + 1) s.data []).map String.mk

/-! ## Input guardrail (`src/nodes/input_guardrail.py`) -/

/-- `harmful_keywords` from `input_guardrail_node`. -/
def harmful_keywords : List String :=
  ["kill", "bomb", "attack", "hack", "suicide", "nsfw", "virus", "exploit"]

/-- `math_keywords` from `input_guardrail_node`.  Note: in the Python
source `"lim"` is followed by `"compute"` on the next line with no
comma between them, so adjacent-string-literal concatenation makes the
actual list element `"limcompute"`; neither `"lim"` nor `"compute"` is
an element on its own.  Reproduced faithfully. -/
def math_keywords : List String :=
  ["solve", "equation", "calculate", "find", "how many", "value",
   "integral", "derivative", "number", "arithmatic", "angle", "axis",
   "center", "clock", "compare", "count", "total",
   "limit", "probability", "algebra", "geometry", "matrix",
   "expression", "formula", "constant", "variable", "trigonometric",
   "circle", "triangle", "degree", "percentage", "sin", "cos", "tan",
   "limcompute", "evaluate", "estimate", "simplify", "function", "theorem",
   "equals", "root", "square", "linear", "polynomial", "area", "bar",
   "factor", "time", "times", "profit", "rule", "power", "solution",
   "prove", "proof", "measure", "series", "sum", "product", "ratio",
   "vector", "graph", "algorithm", "set", "digit", "fraction", "unit",
   "x^", "y^", "z^"]

/-- Rejection message for empty input. -/
def rejectionEmptyMsg : String := "Invalid query: input is empty."

/-- Rejection message for unsafe content (the two adjacent Python string
literals concatenated). -/
def rejectionUnsafeMsg : String :=
  "Your query appears to contain unsafe or harmful content. " ++
  "This math agent only answers mathematics questions."

/-- Rejection message for non-math queries. -/
def rejectionNonMathMsg : String :=
  "This agent only supports mathematics-related questions. " ++
  "Please ask a math question (e.g., an equation, proof, or calculation)."

/-- Result of the guardrail: the `is_safe` flag and the value written to
`state["reasoning_output"]` (written only on rejection). -/
structure GuardOut where
  is_safe : Bool
  reasoning_output : Option String
deriving DecidableEq

/-- `input_guardrail_node` (pure part: the state fields it writes). -/
def input_guardrail_node (rawQuery : String) : GuardOut :=
  let query := pyStrip rawQuery
  if query = "" then ⟨false, some rejectionEmptyMsg⟩
  else
    let lowered := lowerS query
    if harmful_keywords.any (fun w => containsSub lowered w) then
      ⟨false, some rejectionUnsafeMsg⟩
    else if ¬ math_keywords.any (fun k => containsSub lowered k) then
      ⟨false, some rejectionNonMathMsg⟩
    else ⟨true, none⟩

/-! ## Query breaker (`src/nodes/query_breaker.py`) -/

/-- The connective triggers of `_heuristic_split`, in priority order. -/
def triggers : List String :=
  [" and ", " then ", " also ", " next ", " first ", " second "]

/-- `_heuristic_split`: the first trigger contained in the *lowercased*
query selects the split; the split itself runs on the *original* query
(`query.split(trig)`), fragments are stripped and empty ones dropped. -/
def heuristic_split (query : String) : List String :=
  let lowered := lowerS query
  match triggers.find? (fun trig => containsSub lowered trig) with
  | some trig => ((splitOnS query trig).map pyStrip).filter (fun p => p ≠ "")
  | none => [query]

/-- The spec's version of the heuristic (`spec.md` section 4.2): the scan is
case-insensitive and the split happens at the *case-insensitive* whole-token
occurrences.  Written from the spec's words, for comparison with
`heuristic_split` above; splitting the lowercased query at the lowercase
token realises exactly the case-insensitive split (fragment letter case is
irrelevant to the fragment count compared here). -/
def heuristicSplitSpec (query : String) : List String :=
  let lowered := lowerS query
  match triggers.find? (fun trig => containsSub lowered trig) with
  | some trig => ((splitOnS lowered trig).map pyStrip).filter (fun p => p ≠ "")
  | none => [query]

/-- `_llm_split` after the external call: `none` models every failure path
(missing API key, call error, non-JSON, non-list, non-string items), which
returns `[query]`; `some xs` models a successful structured response, whose
items are stripped and empty ones dropped. -/
def llm_split (query : String) (llmResp : Option (List String)) : List String :=
  match llmResp with
  | none => [query]
  | some xs => (xs.map pyStrip).filter (fun s => s ≠ "")

/-- Result of the query breaker: the `broken_queries` list and whether the
external LLM fallback was invoked. -/
structure BreakOut where
  broken : List String
  usedLLM : Bool
deriving DecidableEq

/-- `query_breaker_node`: heuristic first; the LLM fallback only when the
heuristic yields at most one fragment; a final guard restores `[query]` if
the subquery list is empty. -/
def query_breaker_node (llmResp : Option (List String)) (rawQuery : String) :
    BreakOut :=
  let query := pyStrip rawQuery
  let heuristics := heuristic_split query
  if 1 < heuristics.length then ⟨heuristics, false⟩
  else
    let subqueries := llm_split query llmResp
    let subqueries := if subqueries.isEmpty then [query] else subqueries
    ⟨subqueries, true⟩

/-! ## Documents and local RAG (`src/nodes/local_rag.py`) -/

/-- A LangChain `Document`: page content plus a metadata dict. -/
structure Doc where
  page_content : String
  metadata : List (String × JVal)

/-- Payload of a raw Qdrant hit (`r["payload"]`); absent keys are `none`. -/
structure RagPayload where
  problem : Option String := none
  solution : Option String := none
  topic : Option String := none
  difficulty : Option String := none
  subject : Option String := none
  source_split : Option String := none

/-- A raw hit from the `local_rag_search` tool. -/
structure RawHit where
  payload : Option RagPayload := none
  score : Option ℚ := none

/-- Lift an optional payload string to the JSON value stored in metadata
(`payload.get(k)` gives `None` for a missing key). -/
def optStr : Option String → JVal
  | none => .null
  | some s => .str s

/-- The per-hit conversion loop body of `local_rag_node`: hits whose
(stripped) `problem` is empty are skipped, otherwise a `Document` is built
with text `"Problem: …"` (plus `"Solution: …"` when non-empty) and the
metadata written by the node. -/
def mkLocalDoc (r : RawHit) : Option Doc :=
  let payload := r.payload.getD {}
  let problem := pyStrip (payload.problem.getD "")
  let solution := pyStrip (payload.solution.getD "")
  let score := r.score.getD 0
  if problem = "" then none
  else
    let textParts :=
      if solution = "" then ["Problem: " ++ problem]
      else ["Problem: " ++ problem, "Solution: " ++ solution]
    some ⟨String.intercalate "\n" textParts,
          [("origin", .str "local_rag"), ("score", .num score),
           ("topic", optStr payload.topic),
           ("difficulty", optStr payload.difficulty),
           ("subject", optStr payload.subject),
           ("split", optStr payload.source_split)]⟩

/-- `RAG_THRESHOLD` (`src/config.py`, default 0.80). -/
def RAG_THRESHOLD : ℚ := 4 / 5

/-- The state fields written by `local_rag_node`. -/
structure RagOut where
  local_results : List Doc
  needs_web_fallback : Bool

/-- `metadata.get("score", 0.0)` of the first kept document. -/
def headScore (docs : List Doc) : ℚ :=
  match docs with
  | [] => 0
  | d :: _ =>
    match jget d.metadata "score" with
    | some (.num q) => q
    | _ => 0

/-- `local_rag_node` given the retrieval query and the outcome of the
`local_rag_search` tool call (`Except.error` models any tool exception).
An empty retrieval query skips RAG entirely; a tool exception forces
fallback with empty candidates; otherwise the fallback flag is the strict
comparison of the first kept document's score against the threshold. -/
def local_rag_node (retrievalQuery : String)
    (tool : Except Unit (List RawHit)) : RagOut :=
  if pyStrip retrievalQuery = "" then ⟨[], true⟩
  else
    match tool with
    | .error _ => ⟨[], true⟩
    | .ok raw =>
      let docs := raw.filterMap mkLocalDoc
      match docs with
      | [] => ⟨[], true⟩
      | _ :: _ => ⟨docs, decide (headScore docs < RAG_THRESHOLD)⟩

/-! ## Hybrid reranker (`src/nodes/hybrid_reranker.py`) -/

/-- `RERANK_TOP_K`. -/
def RERANK_TOP_K : ℕ := 8

/-- A candidate: `(text, metadata)` pair. -/
abbrev Cand := String × List (String × JVal)

/-- `_make_candidate_from_local`. -/
def make_candidate_from_local (d : Doc) : Cand :=
  (pyStrip d.page_content, jsetdefault d.metadata "origin" (.str "local_rag"))

/-- A raw web-result dict (`state["web_results"]` entries). -/
abbrev WebItem := List (String × JVal)

/-- `(item.get(k) or "").strip()`. -/
def jgetStr (item : WebItem) (k : String) : String :=
  match jget item k with
  | some (.str s) => pyStrip s
  | _ => ""

/-- `_make_candidate_from_web`. -/
def make_candidate_from_web (item : WebItem) : Cand :=
  let title := jgetStr item "title"
  let url := jgetStr item "url"
  let content := jgetStr item "content"
  let parts :=
    (if title ≠ "" then ["Title: " ++ title] else []) ++
    (if url ≠ "" then ["URL: " ++ url] else []) ++
    (if content ≠ "" then ["", content] else [])
  let text := pyStrip (String.intercalate "\n" parts)
  (text, [("origin", (jget item "source").getD (.str "web")),
          ("title", .str title), ("url", .str url)])

/-- The two candidate-collection loops of `hybrid_reranker_node`: local
docs are only pooled when `needs_web_fallback` is false, and only
candidates with non-empty text are kept; web candidates always follow. -/
def buildCandidates (needsWeb : Bool) (localDocs : List Doc)
    (webItems : List WebItem) : List Cand :=
  (if needsWeb then []
   else (localDocs.map make_candidate_from_local).filter (fun c => c.1 ≠ "")) ++
  (webItems.map make_candidate_from_web).filter (fun c => c.1 ≠ "")

/-- A scored candidate `(text, meta, score)`. -/
abbrev Scored := String × (List (String × JVal)) × ℚ

/-- The rerank score of a scored candidate. -/
def scoreOfS (x : Scored) : ℚ := x.2.2

/-- Insert into a descending-sorted list, *after* strictly greater
elements and *before* lower-or-equal ones (so earlier pool elements stay
ahead of equal-scored later ones). -/
def insertDesc (x : Scored) : List Scored → List Scored
  | [] => [x]
  | y :: ys => if scoreOfS y ≤ scoreOfS x then x :: y :: ys
               else y :: insertDesc x ys

/-- `scored.sort(key=lambda x: x[2], reverse=True)`: Python `list.sort`
is the unique stable sort, and with `reverse=True` equal keys still keep
their original order; `sortDesc` computes exactly that stable descending
reordering. -/
def sortDesc : List Scored → List Scored
  | [] => []
  | x :: xs => insertDesc x (sortDesc xs)

/-- The inputs `hybrid_reranker_node` reads from the state. -/
structure RerankIn where
  query : String
  needs_web_fallback : Bool
  local_results : List Doc
  web_results : List WebItem

/-- The `(query, candidate)` pairs sent to the cross-encoder. -/
def mkPairs (inp : RerankIn) : List (String × String) :=
  (buildCandidates inp.needs_web_fallback inp.local_results inp.web_results).map
    (fun c => (pyStrip inp.query, c.1))

/-- `hybrid_reranker_node`: the value written to
`state["reranked_results"]`.  `scorer` models the cross-encoder call
(`Except.error` = any exception).  Empty query or empty candidate pool
yield `[]`; a scorer failure falls back to the first top-K local
documents (local strong) or the first top-K non-empty web candidates
(local weak); otherwise candidates are zipped with their scores, stably
sorted descending, truncated to top-K, and each document's metadata
records its `rerank_score`. -/
def hybrid_reranker_node
    (scorer : List (String × String) → Except Unit (List ℚ))
    (inp : RerankIn) : List Doc :=
  let query := pyStrip inp.query
  if query = "" then []
  else
    let cands := buildCandidates inp.needs_web_fallback inp.local_results
      inp.web_results
    if cands.isEmpty then []
    else
      match scorer (cands.map (fun c => (query, c.1))) with
      | .error _ =>
        if ¬ inp.needs_web_fallback then
          inp.local_results.take RERANK_TOP_K
        else
          (((inp.web_results.take RERANK_TOP_K).map make_candidate_from_web).filter
              (fun c => c.1 ≠ "")).map
            (fun c => Doc.mk c.1 c.2)
      | .ok scores =>
        let scored : List Scored :=
          (cands.zip scores).map (fun p => (p.1.1, p.1.2, p.2))
        ((sortDesc scored).take RERANK_TOP_K).map
          (fun x => Doc.mk x.1 (jset x.2.1 "rerank_score" (.num x.2.2)))

/-! ## Verifier (`src/nodes/verifier.py`) -/

/-- `_strip_code_fence`, translated literally: the guard tests whether the
stripped text starts with *six* backticks (the literal in the source),
then drops three characters from each end and a leading `json` tag. -/
def strip_code_fence (text : String) : String :=
  let t := pyStrip text
  if startsWithS t "``````" then
    let t2 := pyStrip (dropRightS (dropS t 3) 3)
    if startsWithS (lowerS t2) "json" then pyStrip (dropS t2 4) else t2
  else t

/-- The single issue string of the verifier's safe default. -/
def fallbackIssue : String := "Verifier model failed to evaluate the solution."

/-- The `improved_answer` of the verifier's safe default. -/
def fallbackImproved : String :=
  "The system could not verify this solution. " ++
  "Please try again or solve the problem manually."

/-- The safe-default verification dict substituted on any verifier
failure (`json.dumps` of this dict is stored; `json.loads` of that string
gives this dict back, so the round-trip is modelled as the dict itself). -/
def fallbackVerification : List (String × JVal) :=
  [("is_correct", .bool false),
   ("issues", .arr [.str fallbackIssue]),
   ("improved_answer", .str fallbackImproved)]

/-- What `state["verification"]` holds: never written yet (the router's
`setdefault("verification", "")`), a validated JSON text from the LLM, or
the safe-default payload. -/
inductive Ver where
  | unset : Ver
  | okText (s : String) : Ver
  | fallback : Ver
deriving DecidableEq

/-- The `json.loads` collaborator: `none` models a parse exception. -/
abbrev JParser := String → Option JVal

/-- The `try` block of `verifier_node`: `raw = none` models a call error
or a non-string response; otherwise the content is fence-stripped, must
start with `{`, and must parse as JSON — any failure substitutes the safe
default.  The node itself never raises: this function is total. -/
def verifier_node_store (jp : JParser) (raw : Option String) : Ver :=
  match raw with
  | none => .fallback
  | some content =>
    let t := strip_code_fence content
    if ¬ startsWithS t "\x7b" then .fallback
    else
      match jp t with
      | none => .fallback
      | some _ => .okText t

/-- `parseFailed jp raw = true` iff `verifier_node` takes its exception
handler for this response: call error / non-string content, a payload not
starting with `{` after fence stripping, or text `json.loads` rejects. -/
def parseFailed (jp : JParser) (raw : Option String) : Bool :=
  match raw with
  | none => true
  | some content =>
    let t := strip_code_fence content
    ¬ startsWithS t "\x7b" || (jp t).isNone

/-- The loop-count update at the end of `verifier_node`
(`if isinstance(data, dict) and not data.get("is_correct", True)`):
re-parse the stored verification; increment only when it is a dict whose
`is_correct` entry is falsy (a missing key defaults to `True`; a parse
failure leaves `data = {}`, a dict, whose lookup also defaults). -/
def verifierIncrements (jp : JParser) (v : Ver) : Bool :=
  match v with
  | .unset => false
  | .fallback =>
    match jget fallbackVerification "is_correct" with
    | some jv => ¬ truthy jv
    | none => false
  | .okText s =>
    match jp s with
    | some (.obj kvs) =>
      match jget kvs "is_correct" with
      | some jv => ¬ truthy jv
      | none => false
    | _ => false

/-! ## Verification loop (`src/graph/build_graph.py`) -/

/-- `MAX_VERIFICATION_LOOPS`. -/
def MAX_VERIFICATION_LOOPS : ℕ := 2

/-- The `is_correct` extraction inside `verification_loop`: parse the
stored string; any exception (including `json.loads("")` on the unset
default and `data.get` on a non-dict) yields `True`; a missing
`is_correct` key defaults to `True`; otherwise Python truthiness. -/
def loopIsCorrect (jp : JParser) (v : Ver) : Bool :=
  match v with
  | .unset => true
  | .fallback =>
    match jget fallbackVerification "is_correct" with
    | some jv => truthy jv
    | none => true
  | .okText s =>
    match jp s with
    | some (.obj kvs) =>
      match jget kvs "is_correct" with
      | some jv => truthy jv
      | none => true
    | _ => true

/-- The two possible successors of the verifier node. -/
inductive LoopTarget where
  | mcpSearch : LoopTarget
  | outputGuardrail : LoopTarget
deriving DecidableEq

/-- The conditional edge `verification_loop`: the cap check comes first
and sends control to the output guardrail regardless of correctness; only
below the cap does an incorrect answer loop back to external search. -/
def verification_loop (jp : JParser) (v : Ver) (loop_count : ℕ) : LoopTarget :=
  if MAX_VERIFICATION_LOOPS ≤ loop_count then .outputGuardrail
  else if loopIsCorrect jp v then .outputGuardrail
  else .mcpSearch

/-! ## Output node (`src/nodes/output_node.py`)

The two regexes are modelled on character lists: `THINK_PATTERN` is the
non-greedy, case-insensitive, DOTALL pattern `<think>.*?</think>`, each
`FORBIDDEN_PATTERNS` entry is a case-insensitive literal phrase guarded
by `\b` on both sides (every phrase starts and ends with a word
character, so `\b` means "adjacent character is absent or not a word
character"), and `MULTI_NL_PATTERN` is `\n{3,}`.  `re.sub` removes all
non-overlapping matches in one left-to-right pass over the original
string, resuming after each match. -/

/-- Case-insensitive (ASCII `re.IGNORECASE`) prefix test. -/
def isPfxCI : List Char → List Char → Bool
  | [], _ => true
  | _ :: _, [] => false
  | p :: ps, c :: cs => p.toLower = c.toLower && isPfxCI ps cs

/-- Find the first case-insensitive occurrence of `pat`, returning the
text before it and the text after it. -/
def splitFirstCI (pat : List Char) : List Char → Option (List Char × List Char)
  | [] => none
  | c :: rest =>
    if isPfxCI pat (c :: rest) then some ([], (c :: rest).drop pat.length)
    else
      match splitFirstCI pat rest with
      | some (pre, post) => some (c :: pre, post)
      | none => none

theorem splitFirstCI_some_length {pat l pre post : List Char}
    (hp : pat ≠ []) (h : splitFirstCI pat l = some (pre, post)) :
    post.length < l.length := by
  induction l generalizing pre post with
  | nil => simp [splitFirstCI] at h
  | cons c rest ih =>
    rw [splitFirstCI] at h
    by_cases hfx : isPfxCI pat (c :: rest) = true
    · rw [if_pos hfx] at h
      simp only [Option.some.injEq, Prod.mk.injEq] at h
      obtain ⟨h1, h2⟩ := h
      subst h2
      have hlen : 1 ≤ pat.length := by
        cases pat with
        | nil => exact absurd rfl hp
        | cons p ps => simp
      simp only [List.length_drop, List.length_cons]
      omega
    · rw [if_neg hfx] at h
      cases hrec : splitFirstCI pat rest with
      | none => rw [hrec] at h; exact absurd h (by simp)
      | some pr =>
        rw [hrec] at h
        obtain ⟨pre2, post2⟩ := pr
        have hlt := @ih pre2 post2 hrec
        simp only [Option.some.injEq, Prod.mk.injEq] at h
        obtain ⟨h1, h2⟩ := h
        subst h2
        simpa using Nat.lt_succ_of_lt hlt

/-- `"<think>"`. -/
def thinkOpenTag : List Char := "<think>".data

/-- `"</think>"`. -/
def thinkCloseTag : List Char := "</think>".data

/-- One `re.sub` pass of `THINK_PATTERN`: the leftmost match starts at
the first `<think>`, extends (non-greedily) to the first `</think>`
after it, and scanning resumes after the match; if the first `<think>`
has no closing tag after it, no later one has either, so nothing
matches.  The fuel only bounds the recursion: by
`splitFirstCI_some_length` every recursive call strictly shortens the
list, so `l.length + 1` units never run out. -/
def removeThinkAux : ℕ → List Char → List Char
  | 0, l => l
  | fuel + 1, l =>
    match splitFirstCI thinkOpenTag l with
    | none => l
    | some (pre, afterOpen) =>
      match splitFirstCI thinkCloseTag afterOpen with
      | none => l
      | some (_, afterClose) => pre ++ removeThinkAux fuel afterClose

/-- `THINK_PATTERN.sub("", text)`. -/
def removeThinkBlocks (l : List Char) : List Char :=
  removeThinkAux (l.length + 1) l

/-- Python `\w` (ASCII). -/
def isWordChar (c : Char) : Bool := c.isAlphanum || c = '_'

/-- `\b` at a position whose neighbour is this character (all phrases
start and end with word characters). -/
def nonWordB : Option Char → Bool
  | none => true
  | some c => ¬ isWordChar c

/-- One `re.sub` pass removing every `\b`-guarded, case-insensitive
occurrence of the phrase `p :: ps`; `prev` is the character just before
the scan position in the original string.  The fuel only bounds the
recursion (every step consumes at least one character). -/
def removePhraseAux (p : Char) (ps : List Char) :
    ℕ → Option Char → List Char → List Char
  | 0, _, l => l
  | fuel + 1, prev, l =>
    match l with
    | [] => []
    | c :: rest =>
      if isPfxCI (p :: ps) (c :: rest) && nonWordB prev &&
          nonWordB (((c :: rest).drop (p :: ps).length).head?) then
        removePhraseAux p ps fuel (((c :: rest).take (p :: ps).length).getLast?)
          ((c :: rest).drop (p :: ps).length)
      else c :: removePhraseAux p ps fuel (some c) rest

/-- `re.sub(pat, "", text)` for one forbidden phrase. -/
def removePhrase (pat : List Char) (l : List Char) : List Char :=
  match pat with
  | [] => l
  | p :: ps => removePhraseAux p ps (l.length + 1) none l

/-- `FORBIDDEN_PATTERNS`, in source order. -/
def forbiddenPhrases : List (List Char) :=
  ["as an AI".data, "I am unable to".data, "system prompt".data,
   "developer message".data, "OpenAI policies".data,
   "reasoning process".data, "chain of thought".data]

/-- `MULTI_NL_PATTERN.sub("\n\n", text)` scan: collapse each maximal run
of three or more newlines to exactly two.  The fuel only bounds the
recursion (every step consumes at least one character). -/
def collapseAux : ℕ → List Char → List Char
  | 0, l => l
  | fuel + 1, l =>
    match l with
    | [] => []
    | c :: rest =>
      if c = '\n' then
        (if 3 ≤ ((c :: rest).takeWhile (fun x => x = '\n')).length
         then ['\n', '\n']
         else (c :: rest).takeWhile (fun x => x = '\n')) ++
          collapseAux fuel ((c :: rest).dropWhile (fun x => x = '\n'))
      else c :: collapseAux fuel rest

/-- `MULTI_NL_PATTERN.sub("\n\n", text)`. -/
def collapseNewlines (l : List Char) : List Char :=
  collapseAux (l.length + 1) l

/-- `_strip_think_tags`. -/
def strip_think_tags (l : List Char) : List Char :=
  if l.isEmpty then [] else pyStripL (removeThinkBlocks l)

/-- `_sanitize_output`: remove the forbidden phrases in order, collapse
newline runs, then strip. -/
def sanitize_output (l : List Char) : List Char :=
  if l.isEmpty then []
  else
    pyStripL (collapseNewlines
      (forbiddenPhrases.foldl (fun acc pat => removePhrase pat acc) l))

/-- The Output Finalizer's text transformation: think-tag stripping,
then meta-phrase removal, blank-line collapsing and trimming — the
composite the output node applies to the reasoning text. -/
def finalizeText (l : List Char) : List Char :=
  sanitize_output (strip_think_tags l)

/-- `_parse_verifier_json` on the stored verification.  The unset router
default `""` is not valid JSON, hence `none`; a validated stored text
starts with `{`, so a well-formed parse is an object (a non-object parse
cannot reach this point and is mapped to `none` to keep the node total). -/
def parse_verifier_json (jp : JParser) : Ver → Option (List (String × JVal))
  | .unset => none
  | .fallback => some fallbackVerification
  | .okText s =>
    match jp s with
    | some (.obj kvs) => some kvs
    | _ => none

/-- `output_node`: the value written to `state["final_output"]` — the
finalized reasoning text, unless the verification carries a non-empty
string `improved_answer`, which wins. -/
def output_node (jp : JParser) (reasoning_output : String) (v : Ver) : String :=
  let ro := pyStrip reasoning_output
  let cleaned := String.mk (finalizeText ro.data)
  let improved :=
    match parse_verifier_json jp v with
    | some kvs =>
      match jget kvs "improved_answer" with
      | some (.str s) => if pyStrip s = "" then none else some (pyStrip s)
      | _ => none
    | none => none
  match improved with
  | some s => pyStrip s
  | none => pyStrip cleaned

/-! ## The orchestration graph (`src/graph/build_graph.py`)

The LangGraph pipeline is a single structured control flow:
`START → input_guardrail → (END | router) → (END | query_breaker) →
local_rag → (mcp_search?) → reranker → reasoning → verifier →
(mcp_search-loop | output_guardrail) → feedback → END`, which the
run function below reproduces edge for edge.  Each external collaborator
is an oracle; call-counting indices let distinct invocations of the same
collaborator return different answers. -/

/-- The graph's nodes. -/
inductive NodeT where
  | inputGuardrail | router | queryBreaker | localRag | mcpSearch
  | reranker | reasoning | verifier | outputGuardrail | feedback
deriving DecidableEq

/-- The external collaborators of one session. -/
structure Oracles where
  /-- `json.loads`. -/
  jp : JParser
  /-- The query-breaker LLM call (see `llm_split`). -/
  llmSplit : String → Option (List String)
  /-- The `local_rag_search` tool call. -/
  ragTool : String → Except Unit (List RawHit)
  /-- The Tavily bridge: raw result items of the k-th `mcp_search` run
  (failures and missing `results` keys are the empty list). -/
  webSearch : ℕ → List WebItem
  /-- The cross-encoder scorer. -/
  scorer : List (String × String) → Except Unit (List ℚ)
  /-- The reasoning LLM: `none` models a call failure. -/
  reason : ℕ → Option String
  /-- The verifier LLM: raw response content of the k-th verification
  attempt; `none` models a call error or non-string content. -/
  verify : ℕ → Option String

/-- The shared LangGraph state (`src/graph/state.py`).  Python reads
every absent key through `.get(key, default)` (or the router's
`setdefault`), and no node distinguishes an absent key from its default,
so absent keys are modelled by the default values below. -/
structure MathState where
  query : String
  is_safe : Bool := false
  is_math : Bool := true
  broken_queries : List String := []
  local_results : List Doc := []
  web_results : List WebItem := []
  reranked_results : List Doc := []
  reasoning_output : String := ""
  verification : Ver := .unset
  final_output : String := ""
  needs_web_fallback : Bool := false
  loop_count : ℕ := 0

/-- One session run: the graph state plus per-collaborator invocation
counters and the trace of executed nodes. -/
structure RunSt where
  ms : MathState
  mcpCalls : ℕ := 0
  reasonCalls : ℕ := 0
  verCalls : ℕ := 0
  trace : List NodeT := []

/-- `input_guardrail` node step. -/
def stepGuardrail (r : RunSt) : RunSt :=
  let g := input_guardrail_node r.ms.query
  { r with
    ms := { r.ms with
            is_safe := g.is_safe,
            reasoning_output :=
              match g.reasoning_output with
              | some m => m
              | none => r.ms.reasoning_output },
    trace := r.trace ++ [.inputGuardrail] }

/-- `router` node step (it initialises defaults — a no-op here — and
marks the query as math). -/
def stepRouter (r : RunSt) : RunSt :=
  { r with ms := { r.ms with is_math := true },
           trace := r.trace ++ [.router] }

/-- `query_breaker` node step. -/
def stepBreaker (o : Oracles) (r : RunSt) : RunSt :=
  let b := query_breaker_node (o.llmSplit (pyStrip r.ms.query)) r.ms.query
  { r with ms := { r.ms with broken_queries := b.broken },
           trace := r.trace ++ [.queryBreaker] }

/-- `local_rag` node step: retrieval query is the first sub-query when
the query was split, else the query itself. -/
def stepLocalRag (o : Oracles) (r : RunSt) : RunSt :=
  let rq :=
    match r.ms.broken_queries with
    | [] => pyStrip r.ms.query
    | b :: _ => pyStrip b
  let out := local_rag_node rq (o.ragTool rq)
  { r with ms := { r.ms with
                   local_results := out.local_results,
                   needs_web_fallback := out.needs_web_fallback },
           trace := r.trace ++ [.localRag] }

/-- The normalization `mcp_search_node` applies to each Tavily item. -/
def normalizeTavily (item : WebItem) : WebItem :=
  [("source", .str "tavily"),
   ("title", (jget item "title").getD .null),
   ("url", (jget item "url").getD .null),
   ("content", (jget item "content").getD (.str ""))]

/-- `mcp_search` node step: an empty query skips the search; results
replace `web_results`. -/
def stepMcp (o : Oracles) (r : RunSt) : RunSt :=
  let web :=
    if pyStrip r.ms.query = "" then []
    else (o.webSearch r.mcpCalls).map normalizeTavily
  { r with ms := { r.ms with web_results := web },
           mcpCalls := r.mcpCalls + 1,
           trace := r.trace ++ [.mcpSearch] }

/-- `reranker` node step. -/
def stepRerank (o : Oracles) (r : RunSt) : RunSt :=
  { r with
    ms := { r.ms with
            reranked_results :=
              hybrid_reranker_node o.scorer
                ⟨r.ms.query, r.ms.needs_web_fallback,
                 r.ms.local_results, r.ms.web_results⟩ },
    trace := r.trace ++ [.reranker] }

/-- The apology `reasoning_node` substitutes on a generation failure. -/
def reasoningApology : String :=
  "Error: The reasoning model failed. " ++
  "Please try again or verify the retrieved context."

/-- `reasoning` node step. -/
def stepReason (o : Oracles) (r : RunSt) : RunSt :=
  { r with
    ms := { r.ms with
            reasoning_output :=
              match o.reason r.reasonCalls with
              | some s => s
              | none => reasoningApology },
    reasonCalls := r.reasonCalls + 1,
    trace := r.trace ++ [.reasoning] }

/-- `verifier` node step: store the (possibly safe-default) verification
and increment `loop_count` when the stored answer is marked incorrect. -/
def stepVerifier (o : Oracles) (r : RunSt) : RunSt :=
  let stored := verifier_node_store o.jp (o.verify r.verCalls)
  { r with
    ms := { r.ms with
            verification := stored,
            loop_count :=
              if verifierIncrements o.jp stored then r.ms.loop_count + 1
              else r.ms.loop_count },
    verCalls := r.verCalls + 1,
    trace := r.trace ++ [.verifier] }

/-- `output_guardrail` node step. -/
def stepOutput (o : Oracles) (r : RunSt) : RunSt :=
  { r with
    ms := { r.ms with
            final_output :=
              output_node o.jp r.ms.reasoning_output r.ms.verification },
    trace := r.trace ++ [.outputGuardrail] }

/-- `feedback` node step (side effects only; the state is returned
unchanged). -/
def stepFeedback (r : RunSt) : RunSt :=
  { r with trace := r.trace ++ [.feedback] }

/-- The conditional edge `rag_or_mcp`: route through `mcp_search` when
local RAG judged itself weak, else straight to the reranker. -/
def mcpMaybe (o : Oracles) (r : RunSt) : RunSt :=
  if r.ms.needs_web_fallback then stepMcp o r else r

/-- One round of the retry loop: `mcp_search → reranker → reasoning →
verifier`. -/
def loopIter (o : Oracles) (r : RunSt) : RunSt :=
  stepVerifier o (stepReason o (stepRerank o (stepMcp o r)))

/-- The verification retry loop, entered right after a verifier run: the
conditional edge `verification_loop` either proceeds to the output
guardrail or loops through another external-search round.  `fuel` is an
artifact of the embedding; `verifyLoop_completes` shows fuel 3 always
suffices, so the Boolean flag is `true` in every reachable run. -/
def verifyLoopFuel (o : Oracles) : ℕ → RunSt → RunSt × Bool
  | 0, r => (r, false)
  | fuel + 1, r =>
    match verification_loop o.jp r.ms.verification r.ms.loop_count with
    | .outputGuardrail => (r, true)
    | .mcpSearch => verifyLoopFuel o fuel (loopIter o r)

/-- One full session: the graph run for one query, returning the final
run state and the loop-completion flag. -/
def runSession (o : Oracles) (q : String) : RunSt × Bool :=
  let r0 : RunSt := { ms := { query := q } }
  let r1 := stepGuardrail r0
  if ¬ r1.ms.is_safe then (r1, true)
  else
    let r2 := stepRouter r1
    if ¬ r2.ms.is_math then (r2, true)
    else
      let r3 := stepBreaker o r2
      let r4 := stepLocalRag o r3
      let r5 := mcpMaybe o r4
      let r6 := stepRerank o r5
      let r7 := stepReason o r6
      let r8 := stepVerifier o r7
      let rb := verifyLoopFuel o 3 r8
      let r10 := stepOutput o rb.1
      (stepFeedback r10, rb.2)

/-! ## Supporting lemmas for the retry loop -/

/-- The loop's correctness test and the verifier's increment condition
are two readings of the same stored value: control loops back exactly
when the counter was just incremented. -/
theorem loopIsCorrect_eq_false_iff (jp : JParser) (v : Ver) :
    loopIsCorrect jp v = false ↔ verifierIncrements jp v = true := by
  cases v with
  | unset => simp [loopIsCorrect, verifierIncrements]
  | fallback => simp [loopIsCorrect, verifierIncrements, jget,
      fallbackVerification, truthy, List.find?]
  | okText s =>
    cases hjp : jp s with
    | none => simp [loopIsCorrect, verifierIncrements, hjp]
    | some jv =>
      cases jv with
      | obj kvs =>
        cases hk : jget kvs "is_correct" with
        | none => simp [loopIsCorrect, verifierIncrements, hjp, hk]
        | some jv2 =>
          cases htr : truthy jv2 <;>
            simp [loopIsCorrect, verifierIncrements, hjp, hk, htr]
      | null => simp [loopIsCorrect, verifierIncrements, hjp]
      | bool b => simp [loopIsCorrect, verifierIncrements, hjp]
      | num q => simp [loopIsCorrect, verifierIncrements, hjp]
      | str s2 => simp [loopIsCorrect, verifierIncrements, hjp]
      | arr xs => simp [loopIsCorrect, verifierIncrements, hjp]

theorem loopIter_verCalls (o : Oracles) (r : RunSt) :
    (loopIter o r).verCalls = r.verCalls + 1 := rfl

theorem loopIter_verification (o : Oracles) (r : RunSt) :
    (loopIter o r).ms.verification =
      verifier_node_store o.jp (o.verify r.verCalls) := rfl

theorem loopIter_loop_count (o : Oracles) (r : RunSt) :
    (loopIter o r).ms.loop_count =
      if verifierIncrements o.jp ((loopIter o r).ms.verification) then
        r.ms.loop_count + 1
      else r.ms.loop_count := rfl

theorem verifyLoopFuel_succ_out {o : Oracles} {f : ℕ} {r : RunSt}
    (he : verification_loop o.jp r.ms.verification r.ms.loop_count =
      .outputGuardrail) :
    verifyLoopFuel o (f + 1) r = (r, true) := by
  rw [verifyLoopFuel, he]

theorem verifyLoopFuel_succ_mcp {o : Oracles} {f : ℕ} {r : RunSt}
    (he : verification_loop o.jp r.ms.verification r.ms.loop_count =
      .mcpSearch) :
    verifyLoopFuel o (f + 1) r = verifyLoopFuel o f (loopIter o r) := by
  rw [verifyLoopFuel, he]

/-- Control loops back only below the cap and with an incorrect answer. -/
theorem verification_loop_mcp_inv {jp : JParser} {v : Ver} {c : ℕ}
    (he : verification_loop jp v c = .mcpSearch) :
    c < MAX_VERIFICATION_LOOPS ∧ loopIsCorrect jp v = false := by
  by_cases hc : MAX_VERIFICATION_LOOPS ≤ c
  · simp [verification_loop, hc] at he
  · cases hcorr : loopIsCorrect jp v with
    | true => simp [verification_loop, hc, hcorr] at he
    | false => exact ⟨by omega, rfl⟩

/-- If the stored verification reads as correct, the loop exits at once
(with any fuel). -/
theorem verifyLoop_stop (o : Oracles) (fuel : ℕ) (r : RunSt)
    (h : loopIsCorrect o.jp r.ms.verification = true) :
    (verifyLoopFuel o fuel r).1 = r := by
  cases fuel with
  | zero => rfl
  | succ f =>
    have he : verification_loop o.jp r.ms.verification r.ms.loop_count =
        .outputGuardrail := by
      by_cases hc : MAX_VERIFICATION_LOOPS ≤ r.ms.loop_count <;>
        simp [verification_loop, hc, h]
    rw [verifyLoopFuel_succ_out he]

/-- The loop never pushes `loop_count` above the cap. -/
theorem verifyLoop_count_le (o : Oracles) (fuel : ℕ) (r : RunSt)
    (h : r.ms.loop_count ≤ 2) :
    (verifyLoopFuel o fuel r).1.ms.loop_count ≤ 2 := by
  induction fuel generalizing r with
  | zero => exact h
  | succ f ih =>
    cases he : verification_loop o.jp r.ms.verification r.ms.loop_count with
    | outputGuardrail => rw [verifyLoopFuel_succ_out he]; exact h
    | mcpSearch =>
      rw [verifyLoopFuel_succ_mcp he]
      have hlt := (verification_loop_mcp_inv he).1
      simp only [MAX_VERIFICATION_LOOPS] at hlt
      apply ih
      rw [loopIter_loop_count]
      by_cases hinc :
          verifierIncrements o.jp ((loopIter o r).ms.verification) = true
      · rw [if_pos hinc]; omega
      · rw [if_neg hinc]; exact h

/-- Each loop round makes one verification attempt and each retry has
consumed one unit of budget, so the attempts made inside the loop are
bounded by the remaining budget. -/
theorem verifyLoop_verCalls (o : Oracles) (fuel : ℕ) (r : RunSt)
    (h : r.ms.loop_count ≤ 2) :
    (verifyLoopFuel o fuel r).1.verCalls ≤
      r.verCalls + (2 - r.ms.loop_count) := by
  induction fuel generalizing r with
  | zero => exact Nat.le_add_right _ _
  | succ f ih =>
    cases he : verification_loop o.jp r.ms.verification r.ms.loop_count with
    | outputGuardrail =>
      rw [verifyLoopFuel_succ_out he]
      exact Nat.le_add_right _ _
    | mcpSearch =>
      rw [verifyLoopFuel_succ_mcp he]
      have hlt := (verification_loop_mcp_inv he).1
      simp only [MAX_VERIFICATION_LOOPS] at hlt
      by_cases hinc :
          verifierIncrements o.jp ((loopIter o r).ms.verification) = true
      · have hc2 : (loopIter o r).ms.loop_count = r.ms.loop_count + 1 := by
          rw [loopIter_loop_count, if_pos hinc]
        have hle := ih (loopIter o r) (by omega)
        rw [loopIter_verCalls, hc2] at hle
        omega
      · have hcorr :
            loopIsCorrect o.jp ((loopIter o r).ms.verification) = true := by
          cases hx : loopIsCorrect o.jp ((loopIter o r).ms.verification) with
          | false => exact absurd ((loopIsCorrect_eq_false_iff _ _).mp hx) hinc
          | true => rfl
        have hstop := verifyLoop_stop o f (loopIter o r) hcorr
        rw [hstop, loopIter_verCalls]
        omega

/-- Fuel 3 always suffices for the retry loop. -/
theorem verifyLoop_completes (o : Oracles) (fuel : ℕ) (r : RunSt)
    (h1 : 1 ≤ fuel)
    (h2 : loopIsCorrect o.jp r.ms.verification = true ∨
          3 - r.ms.loop_count ≤ fuel) :
    (verifyLoopFuel o fuel r).2 = true := by
  induction fuel generalizing r with
  | zero => omega
  | succ f ih =>
    cases he : verification_loop o.jp r.ms.verification r.ms.loop_count with
    | outputGuardrail => rw [verifyLoopFuel_succ_out he]
    | mcpSearch =>
      rw [verifyLoopFuel_succ_mcp he]
      obtain ⟨hlt, hcorrF⟩ := verification_loop_mcp_inv he
      simp only [MAX_VERIFICATION_LOOPS] at hlt
      have hfuel : 3 - r.ms.loop_count ≤ f + 1 := by
        rcases h2 with hcorr | hb
        · rw [hcorr] at hcorrF; exact absurd hcorrF (by simp)
        · exact hb
      apply ih
      · omega
      · by_cases hinc :
            verifierIncrements o.jp ((loopIter o r).ms.verification) = true
        · right
          rw [loopIter_loop_count, if_pos hinc]
          omega
        · left
          cases hx : loopIsCorrect o.jp ((loopIter o r).ms.verification) with
          | false => exact absurd ((loopIsCorrect_eq_false_iff _ _).mp hx) hinc
          | true => rfl

/-! ## Projection lemmas for the node steps -/

theorem stepGuardrail_is_safe (r : RunSt) :
    (stepGuardrail r).ms.is_safe = (input_guardrail_node r.ms.query).is_safe := rfl

theorem stepRouter_is_math (r : RunSt) : (stepRouter r).ms.is_math = true := rfl

theorem stepVerifier_loop_count (o : Oracles) (r : RunSt) :
    (stepVerifier o r).ms.loop_count =
      if verifierIncrements o.jp (verifier_node_store o.jp (o.verify r.verCalls))
      then r.ms.loop_count + 1 else r.ms.loop_count := rfl

theorem stepVerifier_loop_count_le (o : Oracles) (r : RunSt) :
    (stepVerifier o r).ms.loop_count ≤ r.ms.loop_count + 1 := by
  rw [stepVerifier_loop_count]
  split <;> omega

theorem stepVerifier_verCalls (o : Oracles) (r : RunSt) :
    (stepVerifier o r).verCalls = r.verCalls + 1 := rfl

theorem stepOutput_loop_count (o : Oracles) (r : RunSt) :
    (stepOutput o r).ms.loop_count = r.ms.loop_count := rfl

theorem stepOutput_verCalls (o : Oracles) (r : RunSt) :
    (stepOutput o r).verCalls = r.verCalls := rfl

theorem stepFeedback_loop_count (r : RunSt) :
    (stepFeedback r).ms.loop_count = r.ms.loop_count := rfl

theorem stepFeedback_verCalls (r : RunSt) : (stepFeedback r).verCalls = r.verCalls := rfl

theorem stepFeedback_trace (r : RunSt) :
    (stepFeedback r).trace = r.trace ++ [NodeT.feedback] := rfl

/-- The pipeline segment of a safe session up to (but excluding) the
first verifier run. -/
def preVerify (o : Oracles) (q : String) : RunSt :=
  stepReason o (stepRerank o (mcpMaybe o (stepLocalRag o (stepBreaker o
    (stepRouter (stepGuardrail { ms := { query := q } }))))))

/-- The pipeline segment of a safe session up to and including the first
verifier run. -/
def preLoop (o : Oracles) (q : String) : RunSt :=
  stepVerifier o (preVerify o q)

theorem mcpMaybe_loop_count (o : Oracles) (r : RunSt) :
    (mcpMaybe o r).ms.loop_count = r.ms.loop_count := by
  unfold mcpMaybe
  split <;> rfl

theorem mcpMaybe_verCalls (o : Oracles) (r : RunSt) :
    (mcpMaybe o r).verCalls = r.verCalls := by
  unfold mcpMaybe
  split <;> rfl

theorem preVerify_loop_count (o : Oracles) (q : String) :
    (preVerify o q).ms.loop_count = 0 := by
  unfold preVerify
  rw [show ∀ r, (stepReason o (stepRerank o r)).ms.loop_count = r.ms.loop_count
    from fun _ => rfl, mcpMaybe_loop_count]
  rfl

theorem preVerify_verCalls (o : Oracles) (q : String) :
    (preVerify o q).verCalls = 0 := by
  unfold preVerify
  rw [show ∀ r, (stepReason o (stepRerank o r)).verCalls = r.verCalls
    from fun _ => rfl, mcpMaybe_verCalls]
  rfl

theorem stepVerifier_verification (o : Oracles) (r : RunSt) :
    (stepVerifier o r).ms.verification =
      verifier_node_store o.jp (o.verify r.verCalls) := rfl

theorem preLoop_loop_count_le (o : Oracles) (q : String) :
    (preLoop o q).ms.loop_count ≤ 1 := by
  unfold preLoop
  refine le_trans (stepVerifier_loop_count_le o _) ?_
  rw [preVerify_loop_count]

theorem preLoop_verCalls (o : Oracles) (q : String) :
    (preLoop o q).verCalls = 1 := by
  unfold preLoop
  rw [show (stepVerifier o (preVerify o q)).verCalls = (preVerify o q).verCalls + 1
    from rfl, preVerify_verCalls]

/-- `runSession` characterised by the guardrail verdict: a rejected query
stops right after the guardrail; a safe query runs the full pipeline with
the retry loop entered after the first verification. -/
theorem runSession_eq (o : Oracles) (q : String) :
    runSession o q =
      if (input_guardrail_node q).is_safe = true then
        (stepFeedback (stepOutput o (verifyLoopFuel o 3 (preLoop o q)).1),
         (verifyLoopFuel o 3 (preLoop o q)).2)
      else (stepGuardrail { ms := { query := q } }, true) := by
  by_cases h : (input_guardrail_node q).is_safe = true <;>
    simp [runSession, preLoop, preVerify, stepGuardrail_is_safe,
      stepRouter_is_math, h]

theorem stepGuardrail_loop_count (r : RunSt) :
    (stepGuardrail r).ms.loop_count = r.ms.loop_count := rfl

theorem stepGuardrail_verCalls (r : RunSt) :
    (stepGuardrail r).verCalls = r.verCalls := rfl

/-- A concrete oracle bundle for witnesses: every external collaborator
fails. -/
def oW : Oracles where
  jp := fun _ => none
  llmSplit := fun _ => none
  ragTool := fun _ => .error ()
  webSearch := fun _ => []
  scorer := fun _ => .error ()
  reason := fun _ => none
  verify := fun _ => none

/-- **C1.** With the retry cap `MAX_VERIFICATION_LOOPS = 2`: (i) the
conditional edge checks the cap before correctness, so at the cap it
proceeds to the output guardrail whatever the stored verification says;
(ii) in every session, against every behaviour of the external
collaborators, the retry counter `loop_count` never exceeds 2; (iii)
every session makes at most cap + 1 verification attempts and its retry
loop completes (the fuel bound of the embedding is never reached); (iv)
every session the guardrail admits reaches the output/feedback tail of
the graph, i.e. finalizes. -/
theorem C1_retry_cap :
    (∀ (jp : JParser) (v : Ver) (c : ℕ), MAX_VERIFICATION_LOOPS ≤ c →
        verification_loop jp v c = .outputGuardrail) ∧
    (∀ (o : Oracles) (q : String),
        (runSession o q).1.ms.loop_count ≤ MAX_VERIFICATION_LOOPS) ∧
    (∀ (o : Oracles) (q : String),
        (runSession o q).1.verCalls ≤ MAX_VERIFICATION_LOOPS + 1 ∧
        (runSession o q).2 = true) ∧
    (∀ (o : Oracles) (q : String), (input_guardrail_node q).is_safe = true →
        NodeT.outputGuardrail ∈ (runSession o q).1.trace ∧
        NodeT.feedback ∈ (runSession o q).1.trace) := by
  refine ⟨?_, ?_, ?_, ?_⟩
  · intro jp v c h
    unfold verification_loop
    rw [if_pos h]
  · intro o q
    rw [runSession_eq]
    by_cases h : (input_guardrail_node q).is_safe = true
    · rw [if_pos h]
      show (verifyLoopFuel o 3 (preLoop o q)).1.ms.loop_count ≤ 2
      exact verifyLoop_count_le o 3 _ (le_trans (preLoop_loop_count_le o q) one_le_two)
    · rw [if_neg h]
      show (stepGuardrail { ms := { query := q } }).ms.loop_count ≤ 2
      rw [stepGuardrail_loop_count]
      exact Nat.zero_le _
  · intro o q
    rw [runSession_eq]
    by_cases h : (input_guardrail_node q).is_safe = true
    · rw [if_pos h]
      constructor
      · show (verifyLoopFuel o 3 (preLoop o q)).1.verCalls ≤ 3
        have hb := verifyLoop_verCalls o 3 (preLoop o q)
          (le_trans (preLoop_loop_count_le o q) one_le_two)
        rw [preLoop_verCalls] at hb
        omega
      · exact verifyLoop_completes o 3 (preLoop o q) (by omega) (Or.inr (by omega))
    · rw [if_neg h]
      exact ⟨by rw [stepGuardrail_verCalls]; exact Nat.zero_le _, rfl⟩
  · intro o q h
    rw [runSession_eq, if_pos h]
    rw [show (stepFeedback (stepOutput o (verifyLoopFuel o 3 (preLoop o q)).1)).trace
        = ((verifyLoopFuel o 3 (preLoop o q)).1.trace ++ [NodeT.outputGuardrail])
          ++ [NodeT.feedback] from rfl]
    simp

/-- Closed instance of `C1_retry_cap` at a concrete session (all
collaborators failing, an admitted query), discharging all its inner
hypotheses at concrete inputs. -/
theorem C1_retry_cap_witness :
    verification_loop (fun _ => none) Ver.fallback 2 = .outputGuardrail ∧
    (runSession oW "solve x^2 = 16").1.ms.loop_count ≤ 2 ∧
    (runSession oW "solve x^2 = 16").1.verCalls ≤ 3 ∧
    NodeT.feedback ∈ (runSession oW "solve x^2 = 16").1.trace :=
  ⟨C1_retry_cap.1 (fun _ => none) Ver.fallback 2 (le_refl 2),
   C1_retry_cap.2.1 oW "solve x^2 = 16",
   (C1_retry_cap.2.2.1 oW "solve x^2 = 16").1,
   (C1_retry_cap.2.2.2 oW "solve x^2 = 16" (by decide)).2⟩

/-- **C10.** A verifier call failure consumes retry budget: the stored
safe default carries `is_correct = false`, so (i) the verifier stores the
fallback and increments `loop_count`, and the fallback is never read as
correct; (ii) below the cap the conditional edge sends a fallback
verification back to external search; (iii) it does so exactly as for a
genuinely incorrect answer (the edge agrees with any incorrectly-judged
verification at every count); (iv) a session whose verifier fails on
every call still terminates: it finalizes with `loop_count` at the cap
after exactly cap verification attempts. -/
theorem C10_verifier_failure_consumes_budget :
    (∀ jp : JParser,
        verifier_node_store jp none = .fallback ∧
        verifierIncrements jp .fallback = true ∧
        loopIsCorrect jp .fallback = false) ∧
    (∀ (jp : JParser) (c : ℕ), c < MAX_VERIFICATION_LOOPS →
        verification_loop jp .fallback c = .mcpSearch) ∧
    (∀ (jp : JParser) (v : Ver) (c : ℕ), loopIsCorrect jp v = false →
        verification_loop jp .fallback c = verification_loop jp v c) ∧
    (∀ (o : Oracles) (q : String), o.verify = (fun _ => none) →
        (input_guardrail_node q).is_safe = true →
        (runSession o q).2 = true ∧
        (runSession o q).1.ms.loop_count = MAX_VERIFICATION_LOOPS ∧
        (runSession o q).1.verCalls = MAX_VERIFICATION_LOOPS) := by
  have hfb : ∀ jp : JParser, loopIsCorrect jp .fallback = false := fun _ => rfl
  refine ⟨fun jp => ⟨rfl, rfl, rfl⟩, ?_, ?_, ?_⟩
  · intro jp c hc
    unfold verification_loop
    simp only [MAX_VERIFICATION_LOOPS] at hc ⊢
    rw [if_neg (by omega), if_neg (by rw [hfb]; exact Bool.false_ne_true)]
  · intro jp v c hv
    unfold verification_loop
    by_cases hc : MAX_VERIFICATION_LOOPS ≤ c
    · rw [if_pos hc, if_pos hc]
    · rw [if_neg hc, if_neg hc,
        if_neg (by rw [hfb]; exact Bool.false_ne_true),
        if_neg (by rw [hv]; exact Bool.false_ne_true)]
  · intro o q hv hsafe
    rw [runSession_eq, if_pos hsafe]
    -- the state right after the first verification attempt
    have hst : (preLoop o q).ms.verification = .fallback := by
      rw [preLoop, stepVerifier_verification, preVerify_verCalls, hv]
      rfl
    have hc1 : (preLoop o q).ms.loop_count = 1 := by
      rw [preLoop, stepVerifier_loop_count, preVerify_verCalls,
        preVerify_loop_count, hv]
      rfl
    have hvc1 : (preLoop o q).verCalls = 1 := preLoop_verCalls o q
    -- first edge decision: below the cap, incorrect → loop back
    have he1 : verification_loop o.jp (preLoop o q).ms.verification
        (preLoop o q).ms.loop_count = .mcpSearch := by
      rw [hst, hc1]
      unfold verification_loop
      rw [if_neg (by decide), if_neg (by rw [hfb]; exact Bool.false_ne_true)]
    -- the state after the second verification attempt
    have hst2 : (loopIter o (preLoop o q)).ms.verification = .fallback := by
      rw [loopIter_verification, hvc1, hv]
      rfl
    have hc2 : (loopIter o (preLoop o q)).ms.loop_count = 2 := by
      rw [loopIter_loop_count, hst2]
      rw [show verifierIncrements o.jp Ver.fallback = true from rfl]
      rw [if_pos rfl, hc1]
    have hvc2 : (loopIter o (preLoop o q)).verCalls = 2 := by
      rw [loopIter_verCalls, hvc1]
    -- second edge decision: at the cap → output guardrail
    have he2 : verification_loop o.jp (loopIter o (preLoop o q)).ms.verification
        (loopIter o (preLoop o q)).ms.loop_count = .outputGuardrail := by
      rw [hc2]
      unfold verification_loop
      rw [if_pos (by decide)]
    have hloop : verifyLoopFuel o 3 (preLoop o q) =
        (loopIter o (preLoop o q), true) := by
      rw [show (3 : ℕ) = 2 + 1 from rfl, verifyLoopFuel_succ_mcp he1,
        show (2 : ℕ) = 1 + 1 from rfl, verifyLoopFuel_succ_out he2]
    refine ⟨by rw [hloop], ?_, ?_⟩
    · show (stepFeedback (stepOutput o (verifyLoopFuel o 3 (preLoop o q)).1)).ms.loop_count
        = MAX_VERIFICATION_LOOPS
      rw [stepFeedback_loop_count, stepOutput_loop_count, hloop]
      exact hc2
    · show (stepFeedback (stepOutput o (verifyLoopFuel o 3 (preLoop o q)).1)).verCalls
        = MAX_VERIFICATION_LOOPS
      rw [stepFeedback_verCalls, stepOutput_verCalls, hloop]
      exact hvc2

/-- Closed instance of `C10_verifier_failure_consumes_budget` at a
concrete session whose verifier fails on every call. -/
theorem C10_verifier_failure_consumes_budget_witness :
    verifier_node_store (fun _ => none) none = .fallback ∧
    verification_loop (fun _ => none) .fallback 0 = .mcpSearch ∧
    (runSession oW "solve x^2 = 16").1.ms.loop_count = 2 ∧
    (runSession oW "solve x^2 = 16").1.verCalls = 2 :=
  ⟨(C10_verifier_failure_consumes_budget.1 (fun _ => none)).1,
   C10_verifier_failure_consumes_budget.2.1 (fun _ => none) 0 (by decide),
   (C10_verifier_failure_consumes_budget.2.2.2 oW "solve x^2 = 16" rfl
     (by decide)).2.1,
   (C10_verifier_failure_consumes_budget.2.2.2 oW "solve x^2 = 16" rfl
     (by decide)).2.2⟩

/-- A concrete raw hit for witnesses: non-empty problem text, score
exactly at the threshold. -/
def rawHitW : RawHit :=
  { payload := some { problem := some "p" }, score := some (4 / 5) }

/-- **C4.** The fallback decision of local retrieval: for a non-empty
retrieval query and a successful tool call, the kept documents are the
hits with non-empty problem text, and `needs_web_fallback` is true
exactly when no document was kept or the first document's score is
*strictly* below `RAG_THRESHOLD` (so a top score equal to the threshold
keeps fallback off); any tool exception yields no candidates and forces
fallback. -/
theorem C4_fallback_decision :
    (∀ (rq : String) (raw : List RawHit), pyStrip rq ≠ "" →
        (local_rag_node rq (.ok raw)).local_results = raw.filterMap mkLocalDoc ∧
        (local_rag_node rq (.ok raw)).needs_web_fallback =
          ((raw.filterMap mkLocalDoc).isEmpty ||
            decide (headScore (raw.filterMap mkLocalDoc) < RAG_THRESHOLD))) ∧
    (∀ (rq : String) (raw : List RawHit), pyStrip rq ≠ "" →
        (raw.filterMap mkLocalDoc).isEmpty = false →
        headScore (raw.filterMap mkLocalDoc) = RAG_THRESHOLD →
        (local_rag_node rq (.ok raw)).needs_web_fallback = false) ∧
    (∀ rq : String, local_rag_node rq (.error ()) = ⟨[], true⟩) := by
  have hmain : ∀ (rq : String) (raw : List RawHit), pyStrip rq ≠ "" →
      (local_rag_node rq (.ok raw)).local_results = raw.filterMap mkLocalDoc ∧
      (local_rag_node rq (.ok raw)).needs_web_fallback =
        ((raw.filterMap mkLocalDoc).isEmpty ||
          decide (headScore (raw.filterMap mkLocalDoc) < RAG_THRESHOLD)) := by
    intro rq raw hq
    simp only [local_rag_node, if_neg hq]
    cases hd : raw.filterMap mkLocalDoc with
    | nil => exact ⟨rfl, rfl⟩
    | cons d t => exact ⟨rfl, rfl⟩
  refine ⟨hmain, ?_, ?_⟩
  · intro rq raw hq hne hsc
    rw [(hmain rq raw hq).2, hne, hsc]
    simp
  · intro rq
    unfold local_rag_node
    by_cases hq : pyStrip rq = ""
    · rw [if_pos hq]
    · rw [if_neg hq]

/-- Closed instance of `C4_fallback_decision`: a score exactly at the
threshold keeps `needs_web_fallback` off; a tool error forces it on. -/
theorem C4_fallback_decision_witness :
    (local_rag_node "find x" (.ok [rawHitW])).needs_web_fallback = false ∧
    local_rag_node "find x" (.error ()) = ⟨[], true⟩ :=
  ⟨C4_fallback_decision.2.1 "find x" [rawHitW] (by decide) (by decide) rfl,
   C4_fallback_decision.2.2 "find x"⟩

/-- **C5.** Whenever the verifier response fails to parse — call error or
non-string content (`raw = none`), a fence-stripped payload that does not
start with `{`, or text the JSON parser rejects — the node stores the
fixed safe default (it never raises: `verifier_node_store` is total), and
that default has `is_correct = false`, a non-empty issues list noting the
verifier failure, and a non-empty improved answer telling the user to
retry. -/
theorem C5_verifier_safe_default :
    (∀ (jp : JParser) (raw : Option String), parseFailed jp raw = true →
        verifier_node_store jp raw = .fallback) ∧
    jget fallbackVerification "is_correct" = some (.bool false) ∧
    jget fallbackVerification "issues" = some (.arr [.str fallbackIssue]) ∧
    ([JVal.str fallbackIssue] : List JVal) ≠ [] ∧
    jget fallbackVerification "improved_answer" = some (.str fallbackImproved) ∧
    fallbackImproved ≠ "" := by
  refine ⟨?_, rfl, rfl, by simp, rfl, by decide⟩
  intro jp raw h
  match raw with
  | none => rfl
  | some content =>
    have hred : verifier_node_store jp (some content) =
        (if ¬ startsWithS (strip_code_fence content) "\x7b" then Ver.fallback
         else
           match jp (strip_code_fence content) with
           | none => Ver.fallback
           | some _ => Ver.okText (strip_code_fence content)) := rfl
    have hred2 : parseFailed jp (some content) =
        (decide (¬ startsWithS (strip_code_fence content) "\x7b" = true) ||
          (jp (strip_code_fence content)).isNone) := rfl
    rw [hred2] at h
    rw [hred]
    by_cases hs : startsWithS (strip_code_fence content) "\x7b"
    · rw [if_neg (by simp [hs])]
      simp only [hs, decide_not, decide_True, Bool.not_true, Bool.false_or] at h
      cases hjp : jp (strip_code_fence content) with
      | none => rfl
      | some v => rw [hjp] at h; simp at h
    · rw [if_pos (by simp [hs])]

/-- Closed instance of `C5_verifier_safe_default`: a plain non-JSON
response parses as failed and is stored as the safe default. -/
theorem C5_verifier_safe_default_witness :
    parseFailed (fun _ => none) (some "not json") = true ∧
    verifier_node_store (fun _ => none) (some "not json") = .fallback :=
  ⟨by decide,
   C5_verifier_safe_default.1 (fun _ => none) (some "not json") (by decide)⟩

/-- A well-formed verifier payload: a JSON object. -/
def innerJsonW : String :=
  "\x7b\"is_correct\": true, \"issues\": [], \"improved_answer\": \"x = 4\"\x7d"

/-- That payload wrapped in a standard triple-backtick code fence with a
`json` tag — exactly the shape the spec's parsing policy says is
stripped. -/
def fencedW : String := "```json\n" ++ innerJsonW ++ "\n```"

/-- **C6** (evaluation of the code at the failing input).  The spec says
a standard code-fence wrapper around a valid JSON object is stripped and
the inner JSON stored.  The code's guard tests for *six* leading
backticks (`t.startswith("``````")`), so a standard triple-backtick
fence is never stripped: `_strip_code_fence` returns the fenced text
unchanged, the `{`-prefix check fails, and the node stores the safe
default instead of the inner JSON — for every behaviour of the JSON
parser. -/
theorem C6_fence_never_stripped :
    fencedW = "```json\n" ++ innerJsonW ++ "\n```" ∧
    startsWithS fencedW "```" = true ∧
    startsWithS fencedW "``````" = false ∧
    startsWithS innerJsonW "\x7b" = true ∧
    strip_code_fence fencedW = fencedW ∧
    (∀ jp : JParser, verifier_node_store jp (some fencedW) = .fallback) ∧
    (∀ jp : JParser, verifier_node_store jp (some fencedW) ≠ .okText innerJsonW) := by
  have hstrip : strip_code_fence fencedW = fencedW := by decide
  have hnode : ∀ jp : JParser, verifier_node_store jp (some fencedW) = .fallback := by
    intro jp
    have hred : verifier_node_store jp (some fencedW) =
        (if ¬ startsWithS (strip_code_fence fencedW) "\x7b" then Ver.fallback
         else
           match jp (strip_code_fence fencedW) with
           | none => Ver.fallback
           | some _ => Ver.okText (strip_code_fence fencedW)) := rfl
    rw [hred, hstrip, if_pos (by decide)]
  exact ⟨rfl, by decide, by decide, by decide, hstrip, hnode,
    fun jp => by rw [hnode jp]; simp⟩

/-- **C7** counterexample.  The claim reads the heuristic as splitting on
a connective token *in any letter case*: the query
`"Solve x And find y"` contains `" and "` case-insensitively and the
case-insensitive split (the spec's reading, `heuristicSplitSpec`) yields
2 non-empty fragments, yet `_heuristic_split` returns the whole query as
a single fragment — it detects the trigger in the lowercased text but
splits the *original* text on the lowercase literal — and the node then
takes the external-LLM path. -/
theorem C7_heuristic_split_counterexample :
    containsSub (lowerS "Solve x And find y") " and " = true ∧
    heuristicSplitSpec "Solve x And find y" = ["solve x", "find y"] ∧
    (heuristicSplitSpec "Solve x And find y").length = 2 ∧
    heuristic_split "Solve x And find y" = ["Solve x And find y"] ∧
    (query_breaker_node (some ["s1"]) "Solve x And find y").usedLLM = true := by
  decide

/-- **C7** as amended: detection of the connective is case-insensitive,
but the split happens only at occurrences of the *lowercase* token in the
original query; whenever the heuristic yields at least two fragments the
node returns exactly those fragments and the external LLM is not
invoked; the spec's own example, being all lowercase, splits into exactly
the 2 non-empty fragments on the highest-priority trigger `" and "`. -/
theorem C7_heuristic_split_amended :
    (∀ (llmResp : Option (List String)) (q : String),
        1 < (heuristic_split (pyStrip q)).length →
        query_breaker_node llmResp q = ⟨heuristic_split (pyStrip q), false⟩) ∧
    heuristic_split "First solve x^2=16 and then find derivative of x^3." =
      ["First solve x^2=16", "then find derivative of x^3."] ∧
    (heuristic_split "First solve x^2=16 and then find derivative of x^3.").length
      = 2 ∧
    triggers.head? = some " and " := by
  refine ⟨?_, by decide, by decide, rfl⟩
  intro llmResp q h
  unfold query_breaker_node
  rw [if_pos h]

/-- Closed instance of `C7_heuristic_split_amended` at the spec's own
example query: the heuristic path is taken and no LLM call is made. -/
theorem C7_heuristic_split_amended_witness :
    query_breaker_node (some ["s1"])
        "First solve x^2=16 and then find derivative of x^3." =
      ⟨["First solve x^2=16", "then find derivative of x^3."], false⟩ := by
  have h := C7_heuristic_split_amended.1 (some ["s1"])
    "First solve x^2=16 and then find derivative of x^3." (by decide)
  rw [h]
  decide

/-- **C8** as amended: a rejected query (empty, unsafe, or non-math)
terminates the session immediately after the guardrail — no decomposer,
retrieval, reranking, reasoning or verification node runs — with the
rejection message stored in `reasoning_output`; the `final_output` field,
however, stays empty, because the output node never runs on this path. -/
theorem C8_rejection_terminal_amended :
    ∀ (o : Oracles) (q : String), (input_guardrail_node q).is_safe = false →
      (runSession o q).1.trace = [NodeT.inputGuardrail] ∧
      (runSession o q).1.ms.final_output = "" ∧
      ∃ msg, (input_guardrail_node q).reasoning_output = some msg ∧
        (runSession o q).1.ms.reasoning_output = msg ∧
        (msg = rejectionEmptyMsg ∨ msg = rejectionUnsafeMsg ∨
          msg = rejectionNonMathMsg) := by
  intro o q h
  have hmsg : ∃ msg, (input_guardrail_node q).reasoning_output = some msg ∧
      (msg = rejectionEmptyMsg ∨ msg = rejectionUnsafeMsg ∨
        msg = rejectionNonMathMsg) := by
    simp only [input_guardrail_node] at h ⊢
    split_ifs at h ⊢ with h1 h2 h3
    · exact ⟨rejectionEmptyMsg, rfl, Or.inl rfl⟩
    · exact ⟨rejectionUnsafeMsg, rfl, Or.inr (Or.inl rfl)⟩
    · exact ⟨rejectionNonMathMsg, rfl, Or.inr (Or.inr rfl)⟩
  obtain ⟨msg, hsome, hwhich⟩ := hmsg
  rw [runSession_eq, if_neg (by simp [h])]
  refine ⟨rfl, rfl, msg, hsome, ?_, hwhich⟩
  show (match (input_guardrail_node q).reasoning_output with
        | some m => m
        | none => ({ query := q } : MathState).reasoning_output) = msg
  rw [hsome]

/-- Closed instance of `C8_rejection_terminal_amended` at a concrete
rejected query. -/
theorem C8_rejection_terminal_amended_witness :
    (runSession oW "hello").1.trace = [NodeT.inputGuardrail] ∧
    (runSession oW "hello").1.ms.final_output = "" :=
  ⟨(C8_rejection_terminal_amended oW "hello" (by decide)).1,
   (C8_rejection_terminal_amended oW "hello" (by decide)).2.1⟩

/-- **C8** counterexample.  As stated the claim makes the rejection
message the session's *final output*: on the rejected query `"hello"`
the session's `final_output` is the empty string — not the rejection
message, which sits in `reasoning_output` — because the graph goes
straight from the guardrail to `END`. -/
theorem C8_rejection_counterexample :
    (input_guardrail_node "hello").is_safe = false ∧
    (runSession oW "hello").1.ms.reasoning_output = rejectionNonMathMsg ∧
    (runSession oW "hello").1.ms.final_output = "" ∧
    (runSession oW "hello").1.ms.final_output ≠ rejectionNonMathMsg ∧
    (runSession oW "hello").1.trace = [NodeT.inputGuardrail] := by
  decide

/-- A concrete web-result item for witnesses. -/
def webItemW : WebItem :=
  [("source", .str "tavily"), ("title", .str "T"), ("url", .str "U"),
   ("content", .str "C")]

/-- A scorer for witnesses: every candidate scores 0. -/
def scorerW : List (String × String) → Except Unit (List ℚ) :=
  fun ps => .ok (ps.map (fun _ => 0))

/-- **C2.** The merge policy of the hybrid reranker: (i) with
`needs_web_fallback = true` the node's output is *independent of the
local candidates* — replacing them by `[]` changes nothing, for every
scorer behaviour, so no local-origin candidate can appear even when
local candidates are non-empty; (ii) with `needs_web_fallback = false`
the candidate pool is exactly the non-empty-text local candidates
followed by the non-empty-text web candidates; (iii) an empty candidate
pool yields an empty ranked list, never an error (the node is total). -/
theorem C2_merge_policy :
    (∀ (scorer : List (String × String) → Except Unit (List ℚ))
        (q : String) (localDocs : List Doc) (webItems : List WebItem),
        hybrid_reranker_node scorer ⟨q, true, localDocs, webItems⟩ =
          hybrid_reranker_node scorer ⟨q, true, [], webItems⟩) ∧
    (∀ (localDocs : List Doc) (webItems : List WebItem),
        buildCandidates false localDocs webItems =
          (localDocs.map make_candidate_from_local).filter (fun c => c.1 ≠ "") ++
          (webItems.map make_candidate_from_web).filter (fun c => c.1 ≠ "")) ∧
    (∀ (scorer : List (String × String) → Except Unit (List ℚ))
        (inp : RerankIn),
        buildCandidates inp.needs_web_fallback inp.local_results
          inp.web_results = [] →
        hybrid_reranker_node scorer inp = []) := by
  refine ⟨fun scorer q localDocs webItems => rfl, fun localDocs webItems => rfl,
    ?_⟩
  intro scorer inp h
  unfold hybrid_reranker_node
  by_cases hq : pyStrip inp.query = ""
  · rw [if_pos hq]
  · rw [if_neg hq, if_pos (by rw [h]; rfl)]

/-- Closed instance of `C2_merge_policy` at concrete inputs: with
fallback on, a non-empty local list leaves the output unchanged; an
empty pool yields `[]`. -/
theorem C2_merge_policy_witness :
    hybrid_reranker_node scorerW
        ⟨"find x", true, [⟨"local text", []⟩], [webItemW]⟩ =
      hybrid_reranker_node scorerW ⟨"find x", true, [], [webItemW]⟩ ∧
    hybrid_reranker_node scorerW ⟨"find x", false, [], []⟩ = [] :=
  ⟨C2_merge_policy.1 scorerW "find x" [⟨"local text", []⟩] [webItemW],
   C2_merge_policy.2.2 scorerW ⟨"find x", false, [], []⟩ rfl⟩

/-! ## Sorting lemmas for the reranker -/

theorem mem_insertDesc {x a : Scored} {l : List Scored} :
    a ∈ insertDesc x l ↔ a = x ∨ a ∈ l := by
  induction l with
  | nil => simp [insertDesc]
  | cons y ys ih =>
    unfold insertDesc
    by_cases hc : scoreOfS y ≤ scoreOfS x
    · rw [if_pos hc]
      simp [List.mem_cons]
    · rw [if_neg hc]
      simp only [List.mem_cons, ih]
      tauto

theorem pairwise_insertDesc (x : Scored) (l : List Scored)
    (h : l.Pairwise (fun a b => scoreOfS b ≤ scoreOfS a)) :
    (insertDesc x l).Pairwise (fun a b => scoreOfS b ≤ scoreOfS a) := by
  induction l with
  | nil => simp [insertDesc]
  | cons y ys ih =>
    rw [List.pairwise_cons] at h
    obtain ⟨hy, hys⟩ := h
    unfold insertDesc
    by_cases hc : scoreOfS y ≤ scoreOfS x
    · rw [if_pos hc]
      refine List.Pairwise.cons ?_ (List.Pairwise.cons hy hys)
      intro b hb
      rcases List.mem_cons.mp hb with rfl | hb2
      · exact hc
      · exact le_trans (hy b hb2) hc
    · rw [if_neg hc]
      refine List.Pairwise.cons ?_ (ih hys)
      intro b hb
      rcases mem_insertDesc.mp hb with rfl | hb2
      · exact le_of_lt (not_le.mp hc)
      · exact hy b hb2

theorem sortDesc_pairwise : ∀ l : List Scored,
    (sortDesc l).Pairwise (fun a b => scoreOfS b ≤ scoreOfS a)
  | [] => List.Pairwise.nil
  | x :: xs => pairwise_insertDesc x (sortDesc xs) (sortDesc_pairwise xs)

theorem filter_insertDesc (x : Scored) (l : List Scored) (s : ℚ) :
    (insertDesc x l).filter (fun y => scoreOfS y = s) =
      if scoreOfS x = s then x :: l.filter (fun y => scoreOfS y = s)
      else l.filter (fun y => scoreOfS y = s) := by
  induction l with
  | nil =>
    by_cases hx : scoreOfS x = s <;> simp [insertDesc, List.filter, hx]
  | cons y ys ih =>
    unfold insertDesc
    by_cases hc : scoreOfS y ≤ scoreOfS x
    · rw [if_pos hc]
      by_cases hx : scoreOfS x = s <;> simp [List.filter_cons, hx]
    · rw [if_neg hc]
      by_cases hx : scoreOfS x = s
      · have hy : ¬ (scoreOfS y = s) := by
          intro he
          exact hc (le_of_eq (hx ▸ he))
        simp [List.filter_cons, hy, ih, hx]
      · by_cases hy : scoreOfS y = s <;> simp [List.filter_cons, hy, ih, hx]

/-- Stability of the descending sort: the elements of any given score
keep their original (pool-insertion) order. -/
theorem sortDesc_filter (l : List Scored) (s : ℚ) :
    (sortDesc l).filter (fun y => scoreOfS y = s) =
      l.filter (fun y => scoreOfS y = s) := by
  induction l with
  | nil => rfl
  | cons x xs ih =>
    show (insertDesc x (sortDesc xs)).filter _ = _
    rw [filter_insertDesc]
    by_cases hx : scoreOfS x = s <;> simp [List.filter_cons, hx, ih]

theorem jget_map_replace (kvs : List (String × JVal)) (k : String) (v : JVal)
    (h : (jget kvs k).isSome = true) :
    jget (kvs.map (fun p => if p.1 = k then (p.1, v) else p)) k = some v := by
  induction kvs with
  | nil => simp [jget] at h
  | cons p t ih =>
    by_cases hk : p.1 = k
    · simp [jget, List.find?, hk]
    · have ht : (jget t k).isSome = true := by
        simpa [jget, List.find?, hk] using h
      simpa [jget, List.find?, hk] using ih ht

theorem jget_append_self (kvs : List (String × JVal)) (k : String) (v : JVal) :
    jget (kvs ++ [(k, v)]) k = some v ∨ (jget kvs k).isSome = true := by
  induction kvs with
  | nil => exact Or.inl (by simp [jget, List.find?])
  | cons p t ih =>
    by_cases hk : p.1 = k
    · exact Or.inr (by simp [jget, List.find?, hk])
    · rcases ih with h1 | h2
      · exact Or.inl (by simpa [jget, List.find?, hk] using h1)
      · exact Or.inr (by simpa [jget, List.find?, hk] using h2)

/-- The assignment `m["rerank_score"] = v` makes the lookup return `v`. -/
theorem jget_jset_self (kvs : List (String × JVal)) (k : String) (v : JVal) :
    jget (jset kvs k v) k = some v := by
  unfold jset
  by_cases h : (jget kvs k).isSome = true
  · rw [if_pos h]
    exact jget_map_replace kvs k v h
  · rw [if_neg h]
    rcases jget_append_self kvs k v with h1 | h2
    · exact h1
    · exact absurd h2 h

/-- The rerank score a final document carries in its metadata. -/
def scoreOfDoc (d : Doc) : ℚ :=
  match jget d.metadata "rerank_score" with
  | some (.num q) => q
  | _ => 0

theorem scoreOfDoc_mkFinal (x : Scored) :
    scoreOfDoc (Doc.mk x.1 (jset x.2.1 "rerank_score" (.num x.2.2))) =
      scoreOfS x := by
  unfold scoreOfDoc
  rw [show (Doc.mk x.1 (jset x.2.1 "rerank_score" (.num x.2.2))).metadata
      = jset x.2.1 "rerank_score" (.num x.2.2) from rfl]
  rw [jget_jset_self]
  rfl

/-- The successful-scoring branch of the reranker: zip, stable descending
sort, truncate, annotate. -/
theorem hybrid_reranker_ok (scorer : List (String × String) → Except Unit (List ℚ))
    (inp : RerankIn) (scores : List ℚ)
    (hq : ¬ pyStrip inp.query = "")
    (hc : (buildCandidates inp.needs_web_fallback inp.local_results
      inp.web_results).isEmpty = false)
    (hs : scorer (mkPairs inp) = .ok scores) :
    hybrid_reranker_node scorer inp =
      ((sortDesc (((buildCandidates inp.needs_web_fallback inp.local_results
          inp.web_results).zip scores).map
            (fun p => (p.1.1, p.1.2, p.2)))).take RERANK_TOP_K).map
        (fun x => Doc.mk x.1 (jset x.2.1 "rerank_score" (.num x.2.2))) := by
  unfold hybrid_reranker_node
  rw [if_neg hq, if_neg (by rw [hc]; exact Bool.false_ne_true)]
  rw [show (buildCandidates inp.needs_web_fallback inp.local_results
      inp.web_results).map (fun c => (pyStrip inp.query, c.1)) = mkPairs inp
    from rfl, hs]

/-- **C3.** The reranker's ordering contract: (i) the stable descending
sort is pairwise-descending by rerank score; (ii) it is stable — for
every score, the elements carrying that score appear in pool-insertion
order (local before external in the non-fallback branch, by `C2`);
(iii) the node's output never exceeds `RERANK_TOP_K = 8` items; (iv) on
a successful scoring call the output documents are pairwise-descending
in their `rerank_score` metadata, and every output document carries its
score in that metadata field. -/
theorem C3_rerank_order :
    (∀ l : List Scored,
        (sortDesc l).Pairwise (fun a b => scoreOfS b ≤ scoreOfS a)) ∧
    (∀ (l : List Scored) (s : ℚ),
        (sortDesc l).filter (fun y => scoreOfS y = s) =
          l.filter (fun y => scoreOfS y = s)) ∧
    (∀ (scorer : List (String × String) → Except Unit (List ℚ))
        (inp : RerankIn),
        (hybrid_reranker_node scorer inp).length ≤ RERANK_TOP_K) ∧
    (∀ (scorer : List (String × String) → Except Unit (List ℚ))
        (inp : RerankIn) (scores : List ℚ),
        scorer (mkPairs inp) = .ok scores →
        (hybrid_reranker_node scorer inp).Pairwise
          (fun a b => scoreOfDoc b ≤ scoreOfDoc a) ∧
        (∀ d ∈ hybrid_reranker_node scorer inp,
          jget d.metadata "rerank_score" = some (.num (scoreOfDoc d)))) := by
  refine ⟨sortDesc_pairwise, sortDesc_filter, ?_, ?_⟩
  · intro scorer inp
    unfold hybrid_reranker_node
    by_cases hq : pyStrip inp.query = ""
    · rw [if_pos hq]
      simp [RERANK_TOP_K]
    · rw [if_neg hq]
      by_cases hc : (buildCandidates inp.needs_web_fallback inp.local_results
          inp.web_results).isEmpty
      · rw [if_pos hc]
        simp [RERANK_TOP_K]
      · rw [if_neg hc]
        cases hs : scorer ((buildCandidates inp.needs_web_fallback
            inp.local_results inp.web_results).map
              (fun c => (pyStrip inp.query, c.1))) with
        | error e =>
          by_cases hw : ¬ inp.needs_web_fallback
          · rw [if_pos hw]
            simp [List.length_take, RERANK_TOP_K]
          · rw [if_neg hw]
            calc ((((inp.web_results.take RERANK_TOP_K).map
                    make_candidate_from_web).filter (fun c => c.1 ≠ "")).map
                  (fun c => Doc.mk c.1 c.2)).length
                ≤ ((inp.web_results.take RERANK_TOP_K).map
                    make_candidate_from_web).length := by
                  rw [List.length_map]
                  exact List.length_filter_le _ _
              _ ≤ RERANK_TOP_K := by
                  rw [List.length_map, List.length_take]
                  exact Nat.min_le_left _ _
        | ok scores =>
          simp [List.length_take, RERANK_TOP_K]
  · intro scorer inp scores hs
    by_cases hq : pyStrip inp.query = ""
    · have hz : hybrid_reranker_node scorer inp = [] := by
        unfold hybrid_reranker_node
        rw [if_pos hq]
      rw [hz]
      exact ⟨List.Pairwise.nil, by simp⟩
    · by_cases hc : (buildCandidates inp.needs_web_fallback inp.local_results
          inp.web_results).isEmpty = true
      · have hz : hybrid_reranker_node scorer inp = [] := by
          unfold hybrid_reranker_node
          rw [if_neg hq, if_pos hc]
        rw [hz]
        exact ⟨List.Pairwise.nil, by simp⟩
      · rw [hybrid_reranker_ok scorer inp scores hq
          (Bool.eq_false_iff.mpr hc) hs]
        constructor
        · refine List.Pairwise.map _ ?_
            (((sortDesc_pairwise _).sublist (List.take_sublist _ _)))
          intro a b hab
          rw [scoreOfDoc_mkFinal, scoreOfDoc_mkFinal]
          exact hab
        · intro d hd
          obtain ⟨x, hxmem, hxeq⟩ := List.mem_map.mp hd
          rw [← hxeq, scoreOfDoc_mkFinal]
          exact jget_jset_self _ _ _

/-- Closed instance of `C3_rerank_order` at a concrete successful
scoring run. -/
theorem C3_rerank_order_witness :
    (hybrid_reranker_node scorerW ⟨"find x", false, [], [webItemW]⟩).Pairwise
      (fun a b => scoreOfDoc b ≤ scoreOfDoc a) ∧
    (∀ d ∈ hybrid_reranker_node scorerW ⟨"find x", false, [], [webItemW]⟩,
      jget d.metadata "rerank_score" = some (.num (scoreOfDoc d))) :=
  C3_rerank_order.2.2.2 scorerW ⟨"find x", false, [], [webItemW]⟩
    ((mkPairs ⟨"find x", false, [], [webItemW]⟩).map (fun _ => 0)) rfl

/-! ## The Output Finalizer's fixed points (for C9) -/

/-- Does `THINK_PATTERN` match somewhere in `l`? -/
def hasThinkBlock (l : List Char) : Bool :=
  match splitFirstCI thinkOpenTag l with
  | none => false
  | some (_, afterOpen) => (splitFirstCI thinkCloseTag afterOpen).isSome

/-- Does the `\b`-guarded phrase `p :: ps` match somewhere (scanning with
`prev` as the preceding character)? -/
def hasPhraseAux (p : Char) (ps : List Char) : Option Char → List Char → Bool
  | _, [] => false
  | prev, c :: rest =>
    if isPfxCI (p :: ps) (c :: rest) && nonWordB prev &&
        nonWordB (((c :: rest).drop (p :: ps).length).head?) then true
    else hasPhraseAux p ps (some c) rest

/-- Does the forbidden phrase `pat` match somewhere in `l`? -/
def hasPhrase (pat : List Char) (l : List Char) : Bool :=
  match pat with
  | [] => false
  | p :: ps => hasPhraseAux p ps none l

/-- Does `l` contain a run of three or more newlines (same scan shape as
`collapseAux`)? -/
def hasTripleAux : ℕ → List Char → Bool
  | 0, _ => false
  | fuel + 1, l =>
    match l with
    | [] => false
    | c :: rest =>
      if c = '\n' then
        (3 ≤ ((c :: rest).takeWhile (fun x => x = '\n')).length) ||
          hasTripleAux fuel ((c :: rest).dropWhile (fun x => x = '\n'))
      else hasTripleAux fuel rest

/-- Does `MULTI_NL_PATTERN` match somewhere in `l`? -/
def hasTripleNL (l : List Char) : Bool := hasTripleAux (l.length + 1) l

theorem removeThinkAux_of_no_block (fuel : ℕ) (l : List Char)
    (h : hasThinkBlock l = false) : removeThinkAux fuel l = l := by
  cases fuel with
  | zero => rfl
  | succ f =>
    unfold removeThinkAux
    split
    · rfl
    · split
      · rfl
      · simp_all [hasThinkBlock]

theorem removeThinkBlocks_of_no_block (l : List Char)
    (h : hasThinkBlock l = false) : removeThinkBlocks l = l :=
  removeThinkAux_of_no_block _ _ h

theorem removePhraseAux_of_no_match (p : Char) (ps : List Char) (fuel : ℕ)
    (prev : Option Char) (l : List Char)
    (h : hasPhraseAux p ps prev l = false) :
    removePhraseAux p ps fuel prev l = l := by
  induction fuel generalizing prev l with
  | zero => rfl
  | succ f ih =>
    cases l with
    | nil => rfl
    | cons c rest =>
      have hbody : hasPhraseAux p ps prev (c :: rest) =
          (if isPfxCI (p :: ps) (c :: rest) && nonWordB prev &&
              nonWordB (((c :: rest).drop (p :: ps).length).head?) then true
           else hasPhraseAux p ps (some c) rest) := rfl
      have gbody : removePhraseAux p ps (f + 1) prev (c :: rest) =
          (if isPfxCI (p :: ps) (c :: rest) && nonWordB prev &&
              nonWordB (((c :: rest).drop (p :: ps).length).head?) then
            removePhraseAux p ps f (((c :: rest).take (p :: ps).length).getLast?)
              ((c :: rest).drop (p :: ps).length)
           else c :: removePhraseAux p ps f (some c) rest) := rfl
      rw [hbody] at h
      rw [gbody]
      by_cases hcond : (isPfxCI (p :: ps) (c :: rest) && nonWordB prev &&
          nonWordB (((c :: rest).drop (p :: ps).length).head?)) = true
      · rw [if_pos hcond] at h
        exact absurd h (by simp)
      · rw [if_neg hcond] at h
        rw [if_neg hcond, ih (some c) rest h]

theorem collapseAux_of_no_triple (fuel : ℕ) (l : List Char)
    (h : hasTripleAux fuel l = false) : collapseAux fuel l = l := by
  induction fuel generalizing l with
  | zero => rfl
  | succ f ih =>
    cases l with
    | nil => rfl
    | cons c rest =>
      have hbody : hasTripleAux (f + 1) (c :: rest) =
          (if c = '\n' then
            (decide (3 ≤ ((c :: rest).takeWhile (fun x => x = '\n')).length)) ||
              hasTripleAux f ((c :: rest).dropWhile (fun x => x = '\n'))
           else hasTripleAux f rest) := rfl
      have gbody : collapseAux (f + 1) (c :: rest) =
          (if c = '\n' then
            (if 3 ≤ ((c :: rest).takeWhile (fun x => x = '\n')).length
             then ['\n', '\n']
             else (c :: rest).takeWhile (fun x => x = '\n')) ++
              collapseAux f ((c :: rest).dropWhile (fun x => x = '\n'))
           else c :: collapseAux f rest) := rfl
      rw [hbody] at h
      rw [gbody]
      by_cases hc : c = '\n'
      · rw [if_pos hc] at h ⊢
        simp only [Bool.or_eq_false_iff, decide_eq_false_iff_not] at h
        obtain ⟨h1, h2⟩ := h
        rw [if_neg h1, ih _ h2]
        exact List.takeWhile_append_dropWhile _ _
      · rw [if_neg hc] at h ⊢
        rw [ih rest h]

theorem dropWhile_idem (p : Char → Bool) (l : List Char) :
    (l.dropWhile p).dropWhile p = l.dropWhile p := by
  induction l with
  | nil => rfl
  | cons c t ih =>
    by_cases hc : p c = true
    · rw [List.dropWhile_cons_of_pos hc, ih]
    · rw [List.dropWhile_cons_of_neg (by simp [hc]),
        List.dropWhile_cons_of_neg (by simp [hc])]

theorem dropWhile_eq_self_head {p : Char → Bool} {c : Char} {t : List Char}
    (h : List.dropWhile p (c :: t) = c :: t) : p c = false := by
  by_cases hc : p c = true
  · rw [List.dropWhile_cons_of_pos hc] at h
    have hlen := congrArg List.length h
    have hle := List.Sublist.length_le (@List.dropWhile_sublist _ t p)
    simp at hlen
    omega
  · simpa using hc

theorem dropWhile_reverse_dropWhile_reverse (x : List Char)
    (hx : x.dropWhile isPyWs = x) :
    ((x.reverse.dropWhile isPyWs).reverse).dropWhile isPyWs =
      (x.reverse.dropWhile isPyWs).reverse := by
  have hsuff : x.reverse.dropWhile isPyWs <:+ x.reverse :=
    List.dropWhile_suffix _
  obtain ⟨t, ht⟩ := hsuff
  have hpfx : (x.reverse.dropWhile isPyWs).reverse <+: x := by
    refine ⟨t.reverse, ?_⟩
    have hrev := congrArg List.reverse ht
    rw [List.reverse_reverse, List.reverse_append] at hrev
    exact hrev
  cases hyy : (x.reverse.dropWhile isPyWs).reverse with
  | nil => simp
  | cons c ys =>
    rw [hyy] at hpfx
    obtain ⟨t2, ht2⟩ := hpfx
    have hx_cons : x = c :: (ys ++ t2) := by rw [← ht2]; simp
    have hpc : isPyWs c = false := by
      apply @dropWhile_eq_self_head isPyWs c (ys ++ t2)
      rw [← hx_cons]
      exact hx_cons ▸ hx
    rw [List.dropWhile_cons_of_neg (by simp [hpc])]

theorem pyStripL_idem (l : List Char) : pyStripL (pyStripL l) = pyStripL l := by
  have h1 : (pyStripL l).dropWhile isPyWs = pyStripL l :=
    dropWhile_reverse_dropWhile_reverse (l.dropWhile isPyWs)
      (dropWhile_idem isPyWs l)
  have hrev : (pyStripL l).reverse =
      (l.dropWhile isPyWs).reverse.dropWhile isPyWs := by
    unfold pyStripL
    rw [List.reverse_reverse]
  have h2 : (pyStripL l).reverse.dropWhile isPyWs = (pyStripL l).reverse := by
    rw [hrev]
    exact dropWhile_idem _ _
  show ((((pyStripL l).dropWhile isPyWs).reverse).dropWhile isPyWs).reverse
      = pyStripL l
  rw [h1, h2, List.reverse_reverse]

theorem pyStripL_sanitize (l : List Char) :
    pyStripL (sanitize_output l) = sanitize_output l := by
  unfold sanitize_output
  by_cases h : l.isEmpty
  · rw [if_pos h]
    rfl
  · rw [if_neg h]
    exact pyStripL_idem _

theorem pyStripL_finalize (l : List Char) :
    pyStripL (finalizeText l) = finalizeText l := by
  unfold finalizeText
  exact pyStripL_sanitize _

/-- **C9** as amended: the finalizing transformation is idempotent on
every input whose finalized output contains no think-block match, no
forbidden-phrase match, and no run of three or more newlines — the
single `re.sub` pass can splice removed spans into a *new* match (see
the counterexample), and exactly those re-matches are excluded here. -/
theorem C9_finalizer_idempotent_amended :
    ∀ l : List Char,
      hasThinkBlock (finalizeText l) = false →
      (∀ pat ∈ forbiddenPhrases, hasPhrase pat (finalizeText l) = false) →
      hasTripleNL (finalizeText l) = false →
      finalizeText (finalizeText l) = finalizeText l := by
  intro l hthink hforb htriple
  have hstrip : pyStripL (finalizeText l) = finalizeText l := pyStripL_finalize l
  by_cases hemp : (finalizeText l).isEmpty
  · have hnil : finalizeText l = [] := by
      cases hfl : finalizeText l with
      | nil => rfl
      | cons c t => rw [hfl] at hemp; simp at hemp
    rw [hnil]
    rfl
  · have hst : strip_think_tags (finalizeText l) = finalizeText l := by
      unfold strip_think_tags
      rw [if_neg hemp, removeThinkBlocks_of_no_block _ hthink]
      exact hstrip
    have hfold : forbiddenPhrases.foldl (fun acc pat => removePhrase pat acc)
        (finalizeText l) = finalizeText l := by
      have hgen : ∀ pats : List (List Char),
          (∀ pat ∈ pats, hasPhrase pat (finalizeText l) = false) →
          pats.foldl (fun acc pat => removePhrase pat acc) (finalizeText l)
            = finalizeText l := by
        intro pats
        induction pats with
        | nil => intro _; rfl
        | cons p t ih =>
          intro hall
          rw [List.foldl_cons]
          have hp : removePhrase p (finalizeText l) = finalizeText l := by
            unfold removePhrase
            cases p with
            | nil => rfl
            | cons ph pt =>
              exact removePhraseAux_of_no_match ph pt _ none _
                (show hasPhraseAux ph pt none (finalizeText l) = false from
                  hall (ph :: pt) (by simp))
          rw [hp]
          exact ih (fun pat hm => hall pat (by simp [hm]))
      exact hgen forbiddenPhrases hforb
    have hcol : collapseNewlines (finalizeText l) = finalizeText l :=
      collapseAux_of_no_triple _ _ htriple
    show sanitize_output (strip_think_tags (finalizeText l)) = finalizeText l
    rw [hst]
    unfold sanitize_output
    rw [if_neg hemp, hfold, hcol]
    exact hstrip

/-- Closed instance of `C9_finalizer_idempotent_amended` at a concrete
well-behaved input. -/
theorem C9_finalizer_idempotent_amended_witness :
    finalizeText (finalizeText "<think>internal</think>Final answer: 4".data) =
      finalizeText "<think>internal</think>Final answer: 4".data :=
  C9_finalizer_idempotent_amended "<think>internal</think>Final answer: 4".data
    (by decide) (by decide) (by decide)

/-- **C9** counterexample.  Finalizing is *not* idempotent for all
inputs: removing the think-block of
`"<thi<think>a</think>nk>b</think>"` splices the surrounding text into a
brand-new `<think>…</think>` block, which only a second pass removes —
`finalize(finalize(x))` is empty while `finalize(x)` is not. -/
theorem C9_finalizer_not_idempotent_counterexample :
    String.mk (finalizeText "<thi<think>a</think>nk>b</think>".data) =
      "<think>b</think>" ∧
    String.mk (finalizeText (finalizeText
      "<thi<think>a</think>nk>b</think>".data)) = "" ∧
    finalizeText (finalizeText "<thi<think>a</think>nk>b</think>".data) ≠
      finalizeText "<thi<think>a</think>nk>b</think>".data := by
  decide

end MathAgent
